import Mathlib

/-!
Shallow embedding of the hermitclaw frontend core (src/frontend/src/App.tsx):
the transcript reconciler with its cursor/reset algorithm, the input/output
item classifiers, the live WebSocket channel lifecycle, the view-state switch
logic, and the conversation countdown machine.

Modelling conventions.
JSON wire payloads are objects; item fields the view reads as strings are
modelled as `Option String` (`none` models a missing field, i.e. JS
`undefined`).  The `arguments` field of a tool invocation is genuinely
dynamic in the source (the code branches on `typeof` and runs `JSON.parse`
on strings), so it is modelled by the JS-value type `JVal` together with an
executable JSON parser.  `Msg.text` is `Option String`: the source stores
`undefined` in the `text` slot on some paths; a non-string field value that
reaches a text slot is represented through its JS string conversion, a
corner none of the verified properties depend on.  Real time is abstracted:
one `tick` event stands for one elapsed interval period.
-/

namespace Hermitclaw

/-- Record phase, derived from the `is_dream` / `is_planning` flags. -/
inductive Phase where
  | normal
  | dream
  | planning
deriving DecidableEq, Repr

/-- Which side a transcript line is rendered on (`Msg.side` in the source). -/
inductive Side where
  | left
  | right
  | system
deriving DecidableEq, Repr

/-- A transcript line (`Msg` in the source).  `text` is `Option String`
because the source can store JS `undefined` in the text slot. -/
structure Msg where
  side : Side
  text : Option String
  phase : Phase
  image : Option String
  isRespond : Bool
deriving DecidableEq, Repr

/-- A JS value, as needed for the dynamically-typed `arguments` payload. -/
inductive JVal where
  | jnull
  | jbool (b : Bool)
  | jnum (lit : String)
  | jstr (s : String)
  | jarr (elems : List JVal)
  | jobj (fields : List (String × JVal))

/-- One element of a structured user-content list (`part` in the source);
the fields `type`, `text`, `image_url` may each be absent. -/
structure ContentPart where
  type : Option String
  text : Option String
  image_url : Option String
deriving DecidableEq, Repr

/-- The `content` field of a user input item: a string, an array of parts,
or anything else (including absent). -/
inductive UserContent where
  | cstr (s : String)
  | cparts (parts : List ContentPart)
  | cother
deriving DecidableEq, Repr

/-- An input item, partitioned the way `renderInputItem` probes it:
`role === "user"` first, then `type === "function_call_output"`, else other. -/
inductive InputItem where
  | user (content : UserContent)
  | funcCallOutput (output : Option String)
  | other
deriving DecidableEq, Repr

/-- One element of an output `message` item's content list. -/
structure OutContentPart where
  type : Option String
  text : Option String
deriving DecidableEq, Repr

/-- An output item, partitioned the way `renderOutputItem` probes `type`. -/
inductive OutputItem where
  | message (content : Option (List OutContentPart))
  | functionCall (name : Option String) (arguments : Option JVal)
  | webSearchCall
  | other

/-- One call record (`ApiCall` in the source).  `is_dream` / `is_planning`
are optional in the interface (`is_dream?: boolean`). -/
structure ApiCall where
  timestamp : String
  instructions : String
  input : List InputItem
  output : List OutputItem
  is_dream : Option Bool
  is_planning : Option Bool

/-- One registry entry (`CrabInfo` in the source). -/
structure CrabInfo where
  id : String
  name : String
  state : String
  thought_count : Int
deriving DecidableEq, Repr

/-- The `activity` view field. -/
structure Activity where
  type : String
  detail : String
deriving DecidableEq, Repr

/- ### JS string semantics helpers -/

/-- JS truthiness of a string-or-undefined value: `undefined` and `""` are
falsy, every other string is truthy. -/
def truthy : Option String → Bool
  | none => false
  | some s => s != ""

/-- JS property lookup on an object's field list: the binding for a repeated
key is the last one written. -/
def jlookup (k : String) (l : List (String × JVal)) : Option JVal :=
  l.foldl (fun acc p => if p.1 = k then some p.2 else acc) none

/-- JS property assignment on an object's field list: re-assignment keeps
the key's original position, new keys append. -/
def objInsert (k : String) (v : JVal) : List (String × JVal) → List (String × JVal)
  | [] => [(k, v)]
  | (k', v') :: rest => if k' = k then (k', v) :: rest else (k', v') :: objInsert k v rest

mutual
/-- JS `String(x)` conversion of a defined value. -/
def jsToString : JVal → String
  | .jnull => "null"
  | .jbool b => if b then "true" else "false"
  | .jnum lit => lit
  | .jstr s => s
  | .jarr l => jsArrJoin l
  | .jobj _ => "[object Object]"

/-- JS `Array.prototype.join(",")` on the elements' string conversions
(`null` elements convert to the empty string). -/
def jsArrJoin : List JVal → String
  | [] => ""
  | v :: vs =>
    (match v with
     | .jnull => ""
     | w => jsToString w) ++
    (match vs with
     | [] => ""
     | _ :: _ => "," ++ jsArrJoin vs)
end

/-- JS `String(x)` including the undefined case. -/
def jsShow : Option JVal → String
  | none => "undefined"
  | some v => jsToString v

/- ### JSON.stringify(v, null, 2) -/

/-- Four lowercase hex digits, used by string escaping. -/
def hexDigit (n : Nat) : Char :=
  if n < 10 then Char.ofNat ('0'.toNat + n) else Char.ofNat ('a'.toNat + (n - 10))

/-- Four-hex-digit rendering of a code point below 0x10000. -/
def hex4 (n : Nat) : String :=
  String.mk [hexDigit (n / 4096 % 16), hexDigit (n / 256 % 16),
             hexDigit (n / 16 % 16), hexDigit (n % 16)]

/-- JSON escaping of one character. -/
def jesc (c : Char) : String :=
  if c = '"' then "\\\""
  else if c = '\\' then "\\\\"
  else if c = '\n' then "\\n"
  else if c = '\r' then "\\r"
  else if c = '\t' then "\\t"
  else if c = '\x08' then "\\b"
  else if c = '\x0c' then "\\f"
  else if c.toNat < 32 then "\\u" ++ hex4 c.toNat
  else String.singleton c

/-- JSON quoting of a string. -/
def quoteJson (s : String) : String :=
  "\"" ++ String.join (s.data.map jesc) ++ "\""

mutual
/-- `JSON.stringify(v, null, 2)` at the given current indentation. -/
def jstringify (ind : String) : JVal → String
  | .jnull => "null"
  | .jbool b => if b then "true" else "false"
  | .jnum lit => lit
  | .jstr s => quoteJson s
  | .jarr [] => "[]"
  | .jarr (v :: vs) => "[\n" ++ jelems (ind ++ "  ") (v :: vs) ++ "\n" ++ ind ++ "]"
  | .jobj [] => "\x7b\x7d"
  | .jobj (f :: fs) => "\x7b\n" ++ jmembers (ind ++ "  ") (f :: fs) ++ "\n" ++ ind ++ "\x7d"

/-- Object members of a stringified object, one per line. -/
def jmembers (ind : String) : List (String × JVal) → String
  | [] => ""
  | (k, v) :: rest =>
    ind ++ quoteJson k ++ ": " ++ jstringify ind v ++
    (match rest with
     | [] => ""
     | _ :: _ => ",\n" ++ jmembers ind rest)

/-- Array elements of a stringified array, one per line. -/
def jelems (ind : String) : List JVal → String
  | [] => ""
  | v :: rest =>
    ind ++ jstringify ind v ++
    (match rest with
     | [] => ""
     | _ :: _ => ",\n" ++ jelems ind rest)
end

/-- `JSON.stringify(v, null, 2)`. -/
def jsonStringify (v : JVal) : String := jstringify "" v

/- ### JSON.parse -/

/-- JSON whitespace. -/
def jsonWs (c : Char) : Bool := c = ' ' || c = '\t' || c = '\n' || c = '\r'

/-- Skip leading JSON whitespace. -/
def skipWs : List Char → List Char
  | [] => []
  | c :: cs => if jsonWs c then skipWs cs else c :: cs

/-- Does the literal occur as an initial segment of the string? -/
def litAt : List Char → List Char → Bool
  | [], _ => true
  | _ :: _, [] => false
  | p :: ps, c :: cs => p = c && litAt ps cs

/-- Hex digit value. -/
def hexVal (c : Char) : Option Nat :=
  if '0' ≤ c ∧ c ≤ '9' then some (c.toNat - '0'.toNat)
  else if 'a' ≤ c ∧ c ≤ 'f' then some (c.toNat - 'a'.toNat + 10)
  else if 'A' ≤ c ∧ c ≤ 'F' then some (c.toNat - 'A'.toNat + 10)
  else none

/-- Four hex digits of a `\u` escape. -/
def parseHex4 : List Char → Option (Nat × List Char)
  | a :: b :: c :: d :: rest =>
    match hexVal a, hexVal b, hexVal c, hexVal d with
    | some x, some y, some z, some w => some (((x * 16 + y) * 16 + z) * 16 + w, rest)
    | _, _, _, _ => none
  | _ => none

/-- Body of a JSON string after the opening quote; returns the decoded
string and the remainder after the closing quote.  Surrogate code points in
`\u` escapes are rejected (conservative: real `JSON.parse` accepts them). -/
def parseStrAux : Nat → List Char → List Char → Option (String × List Char)
  | 0, _, _ => none
  | fuel + 1, acc, cs =>
    match cs with
    | [] => none
    | c :: rest =>
      if c = '"' then some (String.mk acc.reverse, rest)
      else if c = '\\' then
        match rest with
        | [] => none
        | e :: rest2 =>
          if e = '"' then parseStrAux fuel ('"' :: acc) rest2
          else if e = '\\' then parseStrAux fuel ('\\' :: acc) rest2
          else if e = '/' then parseStrAux fuel ('/' :: acc) rest2
          else if e = 'b' then parseStrAux fuel ('\x08' :: acc) rest2
          else if e = 'f' then parseStrAux fuel ('\x0c' :: acc) rest2
          else if e = 'n' then parseStrAux fuel ('\n' :: acc) rest2
          else if e = 'r' then parseStrAux fuel ('\r' :: acc) rest2
          else if e = 't' then parseStrAux fuel ('\t' :: acc) rest2
          else if e = 'u' then
            match parseHex4 rest2 with
            | some (n, rest3) =>
              if 0xD800 ≤ n ∧ n < 0xE000 then none
              else parseStrAux fuel (Char.ofNat n :: acc) rest3
            | none => none
          else none
      else if c.toNat < 32 then none
      else parseStrAux fuel (c :: acc) rest

/-- Optional exponent part of a JSON number, appended to the literal. -/
def parseExpPart (lit : List Char) (cs : List Char) : Option (List Char × List Char) :=
  match cs with
  | e :: rest =>
    if e = 'e' ∨ e = 'E' then
      let (sgn, rest2) :=
        match rest with
        | s :: t => if s = '+' ∨ s = '-' then ([s], t) else (([] : List Char), s :: t)
        | [] => ([], [])
      let (ds, rest3) := rest2.span Char.isDigit
      if ds.isEmpty then none else some (lit ++ e :: (sgn ++ ds), rest3)
    else some (lit, cs)
  | [] => some (lit, cs)

/-- Optional fraction part of a JSON number, then the exponent part. -/
def parseFracPart (lit : List Char) (cs : List Char) : Option (List Char × List Char) :=
  match cs with
  | '.' :: rest =>
    let (ds, rest2) := rest.span Char.isDigit
    if ds.isEmpty then none else parseExpPart (lit ++ '.' :: ds) rest2
  | _ => parseExpPart lit cs

/-- A JSON number literal: optional minus, integer part without a leading
zero, optional fraction and exponent.  Returns the literal and remainder. -/
def parseNumCore (cs : List Char) : Option (List Char × List Char) :=
  let (neg, cs1) :=
    match cs with
    | '-' :: t => ([('-' : Char)], t)
    | _ => (([] : List Char), cs)
  match cs1 with
  | [] => none
  | c :: t =>
    if c = '0' then parseFracPart (neg ++ ['0']) t
    else if c.isDigit then
      let (ds, t2) := t.span Char.isDigit
      parseFracPart (neg ++ c :: ds) t2
    else none

/-- Literal `true`. -/
def trueLit : List Char := ("true").data
/-- Literal `false`. -/
def falseLit : List Char := ("false").data
/-- Literal `null`. -/
def nullLit : List Char := ("null").data

mutual
/-- One JSON value with leading whitespace; returns the value and remainder. -/
def parseVal : Nat → List Char → Option (JVal × List Char)
  | 0, _ => none
  | fuel + 1, cs0 =>
    let cs := skipWs cs0
    match cs with
    | [] => none
    | c :: rest =>
      if c = '\x7b' then
        match skipWs rest with
        | '\x7d' :: r2 => some (.jobj [], r2)
        | r2 => parseMembers fuel r2 []
      else if c = '[' then
        match skipWs rest with
        | ']' :: r2 => some (.jarr [], r2)
        | r2 => parseElems fuel r2 []
      else if c = '"' then
        match parseStrAux (fuel + 1) [] rest with
        | some (s, r2) => some (.jstr s, r2)
        | none => none
      else if litAt trueLit cs then some (.jbool true, cs.drop 4)
      else if litAt falseLit cs then some (.jbool false, cs.drop 5)
      else if litAt nullLit cs then some (.jnull, cs.drop 4)
      else
        match parseNumCore cs with
        | some (lit, r2) => some (.jnum (String.mk lit), r2)
        | none => none

/-- Members of a JSON object, starting at a key's opening quote. -/
def parseMembers : Nat → List Char → List (String × JVal) → Option (JVal × List Char)
  | 0, _, _ => none
  | fuel + 1, cs, acc =>
    match cs with
    | '"' :: r =>
      match parseStrAux (fuel + 1) [] r with
      | some (k, r2) =>
        match skipWs r2 with
        | ':' :: r3 =>
          match parseVal fuel r3 with
          | some (v, r4) =>
            let acc2 := objInsert k v acc
            match skipWs r4 with
            | ',' :: r5 => parseMembers fuel (skipWs r5) acc2
            | '\x7d' :: r5 => some (.jobj acc2, r5)
            | _ => none
          | none => none
        | _ => none
      | none => none
    | _ => none

/-- Elements of a JSON array, starting at the first element. -/
def parseElems : Nat → List Char → List JVal → Option (JVal × List Char)
  | 0, _, _ => none
  | fuel + 1, cs, acc =>
    match parseVal fuel cs with
    | some (v, r) =>
      match skipWs r with
      | ',' :: r2 => parseElems fuel r2 (acc ++ [v])
      | ']' :: r2 => some (.jarr (acc ++ [v]), r2)
      | _ => none
    | none => none
end

/-- `JSON.parse`: the whole input must be one JSON value plus whitespace. -/
def jsonParse (raw : String) : Option JVal :=
  match parseVal (raw.data.length + 2) raw.data with
  | some (v, rest) =>
    match skipWs rest with
    | [] => some v
    | _ => none
  | none => none

/- ### The volatile-substring stripper
`const strip = (s) => s.replace(/Right now it is .+\n/, "")
                       .replace(/## Current (mood|focus)\n[\s\S]*?(?=\n##)/, "")`
Both regexes are non-global, so only the leftmost match is removed. -/

/-- The literal head of the "current time" line. -/
def timeLit : List Char := ("Right now it is ").data

/-- Drop characters up to and including the first newline; fails when no
newline follows. -/
def dropThroughNewline : List Char → Option (List Char)
  | [] => none
  | c :: cs => if c = '\n' then some cs else dropThroughNewline cs

/-- Match `Right now it is .+\n` at the start of the string (`.` excludes
the newline, so the match runs to the first newline and requires at least
one character before it); returns the remainder after the match. -/
def matchTimeAt (s : List Char) : Option (List Char) :=
  if litAt timeLit s then
    match s.drop timeLit.length with
    | [] => none
    | c :: cs => if c = '\n' then none else dropThroughNewline cs
  else none

/-- Remove the leftmost match of the "current time" line, if any. -/
def replaceTime : List Char → List Char
  | [] => []
  | c :: cs =>
    match matchTimeAt (c :: cs) with
    | some rest => rest
    | none => c :: replaceTime cs

/-- The lookahead marker terminating the mood/focus block. -/
def markerLit : List Char := ("\n##").data

/-- Return the suffix starting at the first occurrence of the lookahead
marker (the marker itself is not consumed); fails when absent. -/
def untilMarker : List Char → Option (List Char)
  | [] => none
  | c :: cs => if litAt markerLit (c :: cs) then some (c :: cs) else untilMarker cs

/-- Literal `## Current mood` with its newline. -/
def moodLit : List Char := ("## Current mood\n").data
/-- Literal `## Current focus` with its newline. -/
def focusLit : List Char := ("## Current focus\n").data

/-- Match the mood/focus block at the start of the string: one of the two
literals, then a lazy run of any characters up to a `\n##` lookahead. -/
def matchMoodAt (s : List Char) : Option (List Char) :=
  if litAt moodLit s then untilMarker (s.drop moodLit.length)
  else if litAt focusLit s then untilMarker (s.drop focusLit.length)
  else none

/-- Remove the leftmost match of the mood/focus block, if any. -/
def replaceMood : List Char → List Char
  | [] => []
  | c :: cs =>
    match matchMoodAt (c :: cs) with
    | some rest => rest
    | none => c :: replaceMood cs

/-- The `strip` helper of the reconciliation loop: remove the volatile
"current time" line, then the "current mood/focus" block. -/
def strip (s : String) : String := String.mk (replaceMood (replaceTime s.data))

/- ### Item classifiers -/

/-- `renderInputItem` (App.tsx lines 29-48).  A user item with an array
content folds over the parts, each `input_text` part overwriting the text
slot (initialised to `""`) and each `input_image` part overwriting the
image slot; the rendered text falls back to `"[image]"` when the final
text slot is falsy.  A string content maps directly; other content renders
its non-string value (modelled as an undefined text).  A
`function_call_output` renders its `output` field; everything else is
dropped. -/
def renderInputItem (item : InputItem) (phase : Phase) : Option Msg :=
  match item with
  | .user content =>
    match content with
    | .cparts parts =>
      let acc := parts.foldl
        (fun (acc : Option String × Option String) p =>
          (if p.type = some "input_text" then p.text else acc.1,
           if p.type = some "input_image" then p.image_url else acc.2))
        (some "", none)
      some ⟨.left, if truthy acc.1 then acc.1 else some "[image]", phase, acc.2, false⟩
    | .cstr s => some ⟨.left, some s, phase, none, false⟩
    | .cother => some ⟨.left, none, phase, none, false⟩
  | .funcCallOutput out => some ⟨.left, out, phase, none, false⟩
  | .other => none

/-- One part of a thinking message: its text when truthy, else the
bracketed type tag (an absent type prints as `undefined`). -/
def outPartText (c : OutContentPart) : String :=
  if truthy c.text then c.text.getD "" else "[" ++ (c.type.getD "undefined") ++ "]"

/-- The `args` value inside the `try` block: parse string arguments with
`JSON.parse` (failure throws), pass other values through (`none` is JS
`undefined`, for an absent field). -/
def argsVal : Option JVal → Except Unit (Option JVal)
  | some (.jstr raw) =>
    match jsonParse raw with
    | some v => .ok (some v)
    | none => .error ()
  | some v => .ok (some v)
  | none => .ok none

/-- JS property access `v.k`: throws on `null`/`undefined`, looks the key
up on an object, yields `undefined` on every other value. -/
def propAccess (k : String) : Option JVal → Except Unit (Option JVal)
  | none => .error ()
  | some .jnull => .error ()
  | some (.jobj l) => .ok (jlookup k l)
  | some _ => .ok none

/-- A property value dropped into the `text` slot of a `Msg`: absent stays
undefined, a string passes through, any other value is represented through
its JS string conversion. -/
def asMsgText : Option JVal → Option String
  | none => none
  | some (.jstr s) => some s
  | some v => some (jsToString v)

/-- The `respond` branch's `try` body: `args.message` as a text slot. -/
def respondTry (arguments : Option JVal) : Except Unit (Option String) :=
  match argsVal arguments with
  | .error e => .error e
  | .ok args =>
    match propAccess "message" args with
    | .error e => .error e
    | .ok v => .ok (asMsgText v)

/-- The `shell` branch's `try` body: the `args.command` property value. -/
def shellTry (arguments : Option JVal) : Except Unit (Option JVal) :=
  match argsVal arguments with
  | .error e => .error e
  | .ok args => propAccess "command" args

/-- A value interpolated into a template literal (JS string conversion,
with `undefined` printing as `undefined`). -/
def jsTemplate (v : Option JVal) : String := jsShow v

/-- `renderOutputItem` (App.tsx lines 56-98). -/
def renderOutputItem (item : OutputItem) (phase : Phase) : Option Msg :=
  match item with
  | .message content =>
    match content with
    | none => none
    | some parts =>
      let text := String.intercalate "\n" (parts.map outPartText)
      if text != "" then some ⟨.right, some text, phase, none, false⟩ else none
  | .functionCall name arguments =>
    if name = some "respond" then
      match respondTry arguments with
      | .ok t => some ⟨.right, t, phase, none, true⟩
      | .error _ => some ⟨.right, some (jsShow arguments), phase, none, true⟩
    else
      let cmd :=
        if name = some "shell" then
          match shellTry arguments with
          | .ok t => "$ " ++ jsTemplate t
          | .error _ => "$ " ++ jsTemplate arguments
        else
          let args :=
            match arguments with
            | some (.jstr s) => s
            | some v => jsonStringify v
            | none => "undefined"
          "[" ++ (name.getD "undefined") ++ "] " ++ args
      some ⟨.right, some cmd, phase, none, false⟩
  | .webSearchCall => some ⟨.right, some "[web search]", phase, none, false⟩
  | .other => none

/- ### The transcript reconciler (App.tsx lines 334-380) -/

/-- Phase of a record: `is_dream ?? false` wins over `is_planning ?? false`. -/
def phaseOf (c : ApiCall) : Phase :=
  if c.is_dream.getD false then .dream
  else if c.is_planning.getD false then .planning
  else .normal

/-- Condition for the system-prompt divider: a normal-phase record that is
first (`prev = none` models `i === 0`) or whose stripped instructions
differ from the immediately preceding record's stripped instructions. -/
def sysCond (prev : Option ApiCall) (c : ApiCall) : Bool :=
  !(c.is_dream.getD false) && !(c.is_planning.getD false) &&
    (prev.isNone || strip c.instructions != strip ((prev.map (·.instructions)).getD ""))

/-- Messages contributed by the system-prompt divider. -/
def sysSegment (prev : Option ApiCall) (c : ApiCall) : List Msg :=
  if sysCond prev c then [⟨.system, some c.instructions, .normal, none, false⟩] else []

/-- Condition for the dream divider: a dream record that is first or whose
predecessor's `is_dream` is falsy. -/
def dreamCond (prev : Option ApiCall) (c : ApiCall) : Bool :=
  (c.is_dream.getD false) &&
    (match prev with
     | none => true
     | some p => !(p.is_dream.getD false))

/-- Messages contributed by the dream divider. -/
def dreamSegment (prev : Option ApiCall) (c : ApiCall) : List Msg :=
  if dreamCond prev c then [⟨.system, some "Reflecting...", .dream, none, false⟩] else []

/-- Condition for the planning divider. -/
def planCond (prev : Option ApiCall) (c : ApiCall) : Bool :=
  (c.is_planning.getD false) &&
    (match prev with
     | none => true
     | some p => !(p.is_planning.getD false))

/-- Messages contributed by the planning divider. -/
def planSegment (prev : Option ApiCall) (c : ApiCall) : List Msg :=
  if planCond prev c then [⟨.system, some "Planning...", .planning, none, false⟩] else []

/-- Reset detection: `if (seenInputItems >= call.input.length) seenInputItems = 0`. -/
def resetSeen (seen : Nat) (c : ApiCall) : Nat :=
  if c.input.length ≤ seen then 0 else seen

/-- All messages contributed by one record, given the previous record and
the incoming cursor: dividers, then the new input items (the suffix from
the possibly-reset cursor), then every output item. -/
def plainSeg (prev : Option ApiCall) (seen : Nat) (c : ApiCall) : List Msg :=
  sysSegment prev c ++ dreamSegment prev c ++ planSegment prev c ++
  (c.input.drop (resetSeen seen c)).filterMap (fun it => renderInputItem it (phaseOf c)) ++
  c.output.filterMap (fun it => renderOutputItem it (phaseOf c))

/-- The reconciliation loop, threading the previous record and the cursor;
after each record the cursor becomes `input.length + output.length`. -/
def reconcileAux (prev : Option ApiCall) (seen : Nat) : List ApiCall → List Msg
  | [] => []
  | c :: rest =>
    plainSeg prev seen c ++
    reconcileAux (some c) (c.input.length + c.output.length) rest

/-- The reconciled transcript of a record log (the `messages` array). -/
def reconcile (calls : List ApiCall) : List Msg := reconcileAux none 0 calls

/-- The cursor value after processing the whole log. -/
def finalSeenAux (seen : Nat) : List ApiCall → Nat
  | [] => seen
  | c :: rest => finalSeenAux (c.input.length + c.output.length) rest

/-- The cursor value left for the next record after reconciling the log. -/
def finalSeen (calls : List ApiCall) : Nat := finalSeenAux 0 calls

/- ### Provenance-tagged reconciler
The tagged reconciler mirrors `reconcileAux` exactly but records, for every
emitted message, which record (and, for items, which item index) produced
it.  It is related to `reconcileAux` by `reconcileTagged_faithful`. -/

/-- Provenance of one transcript line. -/
inductive Tag where
  | sysTag (rec : Nat)
  | dreamTag (rec : Nat)
  | planTag (rec : Nat)
  | inputTag (rec itm : Nat)
  | outputTag (rec itm : Nat)
deriving DecidableEq, Repr

/-- Tagged messages contributed by one record at log index `i`. -/
def taggedSeg (prev : Option ApiCall) (seen i : Nat) (c : ApiCall) : List (Tag × Msg) :=
  (sysSegment prev c).map (fun m => (Tag.sysTag i, m)) ++
  (dreamSegment prev c).map (fun m => (Tag.dreamTag i, m)) ++
  (planSegment prev c).map (fun m => (Tag.planTag i, m)) ++
  (List.enumFrom (resetSeen seen c) (c.input.drop (resetSeen seen c))).filterMap
    (fun ji => (renderInputItem ji.2 (phaseOf c)).map (fun m => (Tag.inputTag i ji.1, m))) ++
  c.output.enum.filterMap
    (fun ji => (renderOutputItem ji.2 (phaseOf c)).map (fun m => (Tag.outputTag i ji.1, m)))

/-- The tagged reconciliation loop (record indices start at `i`). -/
def reconcileTaggedAux (prev : Option ApiCall) (seen i : Nat) : List ApiCall → List (Tag × Msg)
  | [] => []
  | c :: rest =>
    taggedSeg prev seen i c ++
    reconcileTaggedAux (some c) (c.input.length + c.output.length) (i + 1) rest

/-- The provenance-tagged reconciled transcript. -/
def reconcileTagged (calls : List ApiCall) : List (Tag × Msg) :=
  reconcileTaggedAux none 0 0 calls

/-- Select the output-item events of a tagged transcript. -/
def outMatch (tm : Tag × Msg) : Option (Nat × Nat × Msg) :=
  match tm.1 with
  | .outputTag i j => some (i, j, tm.2)
  | _ => none

/-- The output-item events of a tagged transcript, in transcript order. -/
def outputEvents (l : List (Tag × Msg)) : List (Nat × Nat × Msg) := l.filterMap outMatch

/-- The canonical exactly-once enumeration of classified output items:
record by record (indices from `i0`), item by item, exactly the ones the
classifier keeps, independent of any cursor. -/
def expectedOutputs (i0 : Nat) : List ApiCall → List (Nat × Nat × Msg)
  | [] => []
  | c :: rest =>
    c.output.enum.filterMap
      (fun ji => (renderOutputItem ji.2 (phaseOf c)).map (fun m => (i0, ji.1, m))) ++
    expectedOutputs (i0 + 1) rest

/-- Select the system-divider events of a tagged transcript. -/
def sysMatch (tm : Tag × Msg) : Option Nat :=
  match tm.1 with
  | .sysTag i => some i
  | _ => none

/-- The record indices that emitted a system divider, in transcript order. -/
def sysEvents (l : List (Tag × Msg)) : List Nat := l.filterMap sysMatch

/-- The record indices whose system divider fires, computed directly from
the divider condition against the immediately preceding record. -/
def sysIdx (prev : Option ApiCall) (i0 : Nat) : List ApiCall → List Nat
  | [] => []
  | c :: rest => (if sysCond prev c then [i0] else []) ++ sysIdx (some c) (i0 + 1) rest

/- ### View state and the entity switch (App.tsx lines 100-118, 224-241) -/

/-- The per-entity ephemeral view state: one field per `useState` hook the
switch/bootstrap/live machinery touches. -/
structure ViewState where
  position : Int × Int
  crabState : String
  alert : Bool
  activity : Activity
  focusMode : Bool
  conversing : Bool
  countdown : Int
  hasNew : Bool
  crabName : String
  activeCrab : String
  calls : List ApiCall

/-- The `useState` initial values. -/
def initView : ViewState :=
  { position := (5, 5), crabState := "idle", alert := false,
    activity := ⟨"idle", ""⟩, focusMode := false, conversing := false,
    countdown := 0, hasNew := false, crabName := "the crab",
    activeCrab := "", calls := [] }

/-- The synchronous part of `switchCrab`: a no-op when the entity is
already active; otherwise set the active id, reset `conversing`,
`countdown`, `alert`, `activity` and `hasNew`, and take the display name
from the registry when the entry is known.  (The asynchronous
`loadCrabState(...).then(() => connectWs(...))` part is modelled by the
`NetState` machine below.) -/
def switchCrab (crabs : List CrabInfo) (crabId : String) (s : ViewState) : ViewState :=
  if crabId = s.activeCrab then s
  else
    let s := { s with activeCrab := crabId, conversing := false, countdown := 0,
                      alert := false, activity := ⟨"idle", ""⟩, hasNew := false }
    match crabs.find? (fun c => c.id = crabId) with
    | some crab => { s with crabName := crab.name }
    | none => s

/-- The payloads of one completed `loadCrabState` bootstrap (`/api/raw`,
`/api/status`, `/api/identity`). -/
structure BootData where
  rawCalls : List ApiCall
  position : Option (Int × Int)
  focus_mode : Option Bool
  state : Option String
  name : Option String

/-- Apply a completed bootstrap to the view: replace the record log, then
position and focus mode when present, the coarse state with an `"idle"`
fallback for a falsy value, and the display name when truthy. -/
def applyBoot (d : BootData) (v : ViewState) : ViewState :=
  let v := { v with calls := d.rawCalls }
  let v := match d.position with
    | some p => { v with position := p }
    | none => v
  let v := match d.focus_mode with
    | some f => { v with focusMode := f }
    | none => v
  let v := { v with crabState := if truthy d.state then d.state.getD "idle" else "idle" }
  match d.name with
  | some n => if n != "" then { v with crabName := n } else v
  | none => v

/-- A conversation event payload. -/
inductive ConvEvent where
  | waiting (timeout : Int)
  | ended
  | otherConv

/-- A live-channel event, dispatched by its `event` kind; unrecognized
kinds are `otherEv`. -/
inductive WsEvent where
  | api_call (data : ApiCall)
  | positionEv (p : Int × Int)
  | statusEv (state : String)
  | alertEv
  | activityEv (a : Activity)
  | focus_modeEv (enabled : Bool)
  | conversationEv (c : ConvEvent)
  | otherEv

/-- The `ws.onmessage` dispatcher (App.tsx lines 136-156). -/
def handleWsEvent (e : WsEvent) (v : ViewState) : ViewState :=
  match e with
  | .api_call d => { v with calls := v.calls ++ [d] }
  | .positionEv p => { v with position := p }
  | .statusEv st =>
    let v := { v with crabState := st }
    if st = "thinking" then { v with alert := false } else v
  | .alertEv => { v with alert := true }
  | .activityEv a => { v with activity := a }
  | .focus_modeEv b => { v with focusMode := b }
  | .conversationEv c =>
    match c with
    | .waiting t => { v with conversing := true, countdown := t }
    | .ended => { v with conversing := false, countdown := 0 }
    | .otherConv => v
  | .otherEv => v

/- ### Live channel lifecycle (App.tsx lines 122-170, 224-241) -/

/-- One WebSocket object.  `attached` is whether its `onmessage`/`onclose`
handlers are still installed; `closed` covers both a teardown `close()`
and a network close. -/
structure Chan where
  id : Nat
  crab : String
  attached : Bool
  closed : Bool
deriving DecidableEq, Repr

/-- The connection-lifecycle state: every channel object ever created, the
`wsRef.current` identity, the pending reconnect timers (each holding the
channel object it was scheduled for and the crab id to reconnect to), the
in-flight `loadCrabState` promises, and the view. -/
structure NetState where
  chans : List Chan
  wsRef : Option Nat
  timers : List (Nat × String)
  pendingBoots : List String
  nextId : Nat
  view : ViewState

/-- Teardown of the current channel at the top of `connectWs`: null the
handlers, `close()`, null `wsRef.current`. -/
def closeCurrent (s : NetState) : NetState :=
  match s.wsRef with
  | none => s
  | some cid =>
    { s with
      chans := s.chans.map (fun c => if c.id = cid then { c with attached := false, closed := true } else c),
      wsRef := none }

/-- `connectWs(crabId)`: tear down the current channel, then create a new
one, store it in `wsRef.current` and attach its handlers. -/
def connectWsStep (crabId : String) (s : NetState) : NetState :=
  let s := closeCurrent s
  { s with chans := s.chans ++ [⟨s.nextId, crabId, true, false⟩],
           wsRef := some s.nextId, nextId := s.nextId + 1 }

/-- `switchCrab(crabId)`: the synchronous view reset, plus starting the
asynchronous bootstrap.  The old channel is not touched here. -/
def switchToStep (crabs : List CrabInfo) (crabId : String) (s : NetState) : NetState :=
  if crabId = s.view.activeCrab then s
  else { s with view := switchCrab crabs crabId s.view,
                pendingBoots := s.pendingBoots ++ [crabId] }

/-- Completion of one in-flight bootstrap promise (any of them, modelling
promise completion order): apply its data when the fetches succeeded
(`loadCrabState` swallows fetch errors), then run `connectWs`. -/
def bootDoneStep (idx : Nat) (d : Option BootData) (s : NetState) : NetState :=
  match s.pendingBoots.get? idx with
  | none => s
  | some crabId =>
    match d with
    | some data =>
      connectWsStep crabId
        { s with pendingBoots := s.pendingBoots.eraseIdx idx, view := applyBoot data s.view }
    | none =>
      connectWsStep crabId { s with pendingBoots := s.pendingBoots.eraseIdx idx }

/-- The channel list with channel `cid` marked closed. -/
def closeChan (cid : Nat) (chans : List Chan) : List Chan :=
  chans.map (fun d => if d.id = cid then { d with closed := true } else d)

/-- A network close of channel `cid`: a no-op on an already-closed channel;
otherwise the channel closes and, when its `onclose` handler is still
attached, the handler schedules a reconnect timer iff the channel is still
`wsRef.current`. -/
def chanClosedStep (cid : Nat) (s : NetState) : NetState :=
  match s.chans.find? (fun c => c.id = cid) with
  | none => s
  | some c =>
    if c.closed then s
    else if c.attached then
      (if s.wsRef = some cid then
        { s with chans := closeChan cid s.chans, timers := s.timers ++ [(cid, c.crab)] }
       else { s with chans := closeChan cid s.chans })
    else { s with chans := closeChan cid s.chans }

/-- A reconnect timer fires: it is removed and, iff the channel it was
scheduled for is still `wsRef.current`, runs `connectWs` again. -/
def timerFireStep (idx : Nat) (s : NetState) : NetState :=
  match s.timers.get? idx with
  | none => s
  | some t =>
    if s.wsRef = some t.1 then connectWsStep t.2 { s with timers := s.timers.eraseIdx idx }
    else { s with timers := s.timers.eraseIdx idx }

/-- An event delivered on channel `cid`: dispatched to the view iff the
channel is open and its handlers are attached. -/
def deliverStep (cid : Nat) (e : WsEvent) (s : NetState) : NetState :=
  match s.chans.find? (fun c => c.id = cid) with
  | some c =>
    if c.attached && !c.closed then { s with view := handleWsEvent e s.view } else s
  | none => s

/-- The cooperative event-loop actions of the connection machinery. -/
inductive NetAction where
  | connect (crabId : String)
  | switchTo (crabs : List CrabInfo) (crabId : String)
  | bootDone (idx : Nat) (d : Option BootData)
  | chanClosed (cid : Nat)
  | timerFire (idx : Nat)
  | deliver (cid : Nat) (e : WsEvent)

/-- One event-loop step. -/
def netStep : NetAction → NetState → NetState
  | .connect crabId, s => connectWsStep crabId s
  | .switchTo crabs crabId, s => switchToStep crabs crabId s
  | .bootDone idx d, s => bootDoneStep idx d s
  | .chanClosed cid, s => chanClosedStep cid s
  | .timerFire idx, s => timerFireStep idx s
  | .deliver cid e, s => deliverStep cid e s

/-- Run a sequence of event-loop steps. -/
def netRun (acts : List NetAction) (s : NetState) : NetState :=
  acts.foldl (fun s a => netStep a s) s

/-- The mount-time state: no channel, no timers, default view. -/
def initNet : NetState := ⟨[], none, [], [], 0, initView⟩

/-- The channel-lifecycle invariant: every channel other than
`wsRef.current` is detached and closed; channel ids are below `nextId` and
pairwise distinct. -/
def ChanInv (s : NetState) : Prop :=
  (∀ c ∈ s.chans, s.wsRef ≠ some c.id → c.attached = false ∧ c.closed = true) ∧
  (∀ c ∈ s.chans, c.id < s.nextId) ∧
  (s.chans.map (fun c => c.id)).Nodup

/- ### The conversation countdown machine (App.tsx lines 147-155, 254-269)
The effect is keyed on `[conversing]`, so it re-runs (clearing any running
interval and starting one iff the countdown is positive) exactly when the
`conversing` flag changes; a tick decrements the countdown, and at a value
of at most one it clamps to zero and clears its own interval. -/

/-- The countdown subsystem state: the `conversing` and `countdown` hooks
plus whether the interval of the countdown effect is live. -/
structure CdState where
  conversing : Bool
  countdown : Int
  ticking : Bool
deriving DecidableEq, Repr

/-- The countdown events: a `waiting{timeout}` conversation event, an
`ended` conversation event, and one interval tick. -/
inductive CdEvent where
  | waiting (t : Int)
  | ended
  | tick
deriving DecidableEq, Repr

/-- One countdown transition. -/
def cdStep : CdEvent → CdState → CdState
  | .waiting t, s =>
    let s' : CdState := { s with conversing := true, countdown := t }
    if s.conversing = true then s'
    else { s' with ticking := decide (0 < t) }
  | .ended, s =>
    let s' : CdState := { s with conversing := false, countdown := 0 }
    if s.conversing = false then s'
    else { s' with ticking := false }
  | .tick, s =>
    if s.ticking then
      if s.countdown ≤ 1 then { s with countdown := 0, ticking := false }
      else { s with countdown := s.countdown - 1 }
    else s

/-- Run a sequence of countdown events. -/
def cdRun (evs : List CdEvent) (s : CdState) : CdState :=
  evs.foldl (fun s e => cdStep e s) s

/-- The countdown state on mount. -/
def initCd : CdState := ⟨false, 0, false⟩

/- ### Auxiliary definitions used by the verification statements -/

/-- Strict lexicographic order on (record index, item index) provenance. -/
def outLt (a b : Nat × Nat × Msg) : Prop :=
  a.1 < b.1 ∨ (a.1 = b.1 ∧ a.2.1 < b.2.1)

instance : DecidablePred fun ab : (Nat × Nat × Msg) × (Nat × Nat × Msg) => outLt ab.1 ab.2 :=
  fun _ => by unfold outLt; infer_instance

/-- One record's classified output items, enumerated from item index `n`
and tagged with record index `i0`. -/
def outSeg (ph : Phase) (i0 n : Nat) (l : List OutputItem) : List (Nat × Nat × Msg) :=
  (List.enumFrom n l).filterMap
    (fun ji => (renderOutputItem ji.2 ph).map (fun m => (i0, ji.1, m)))

/-- The final value of the overwritten text slot of `renderInputItem`'s
part loop: the `text` field of the last `input_text` part, defaulting to
the initial `""`. -/
def lastTextSlot (parts : List ContentPart) : Option String :=
  match (parts.filter (fun p => p.type = some "input_text")).getLast? with
  | some p => p.text
  | none => some ""

/-- The final value of the overwritten image slot: the `image_url` field of
the last `input_image` part, defaulting to undefined. -/
def lastImageSlot (parts : List ContentPart) : Option String :=
  match (parts.filter (fun p => p.type = some "input_image")).getLast? with
  | some p => p.image_url
  | none => none

/-- The spec's wording of the structured-user-item classifier, for
comparison with the code: extract the FIRST text part and the FIRST image
part; no text with an image present gives the `"[image]"` placeholder;
no text and no image drops the line. -/
def renderUserPartsSpec (parts : List ContentPart) (phase : Phase) : Option Msg :=
  let t := (parts.find? (fun p => p.type = some "input_text")).bind (fun p => p.text)
  let img := (parts.find? (fun p => p.type = some "input_image")).bind (fun p => p.image_url)
  match t with
  | some txt => some ⟨.left, some txt, phase, img, false⟩
  | none =>
    match img with
    | some _ => some ⟨.left, some "[image]", phase, img, false⟩
    | none => none

/-- The spec's notion used by the system-divider claim: the instructions of
the last normal-phase record strictly before index `i`. -/
def prevNormalInstr (calls : List ApiCall) (i : Nat) : Option String :=
  (((calls.take i).filter (fun c => phaseOf c = .normal)).getLast?).map (fun c => c.instructions)

/-- A three-record log: normal "A", dream "B", normal "A" again. -/
def c3calls : List ApiCall :=
  [⟨"", "A", [], [], none, none⟩,
   ⟨"", "B", [], [], some true, none⟩,
   ⟨"", "A", [], [], none, none⟩]

/-- Second record of the timestamp-only-change log. -/
def c3w2 : ApiCall := ⟨"", "Right now it is 4pm\nA", [], [], none, none⟩

/-- Two normal records whose instructions differ only in the volatile
"current time" line. -/
def c3wcalls : List ApiCall :=
  [⟨"", "Right now it is 3pm\nA", [], [], none, none⟩, c3w2]

/-- A content list with two text parts (the second one empty) and no image. -/
def c4parts : List ContentPart :=
  [⟨some "input_text", some "a", none⟩, ⟨some "input_text", some "", none⟩]

/-- Record 1 of the spec's end-to-end example. -/
def c5rec1 : ApiCall :=
  ⟨"", "sys", [.user (.cstr "hi")],
   [.functionCall (some "respond") (some (.jobj [("message", .jstr "hello")]))], none, none⟩

/-- Record 2 of the spec's end-to-end example. -/
def c5rec2 : ApiCall :=
  ⟨"", "sys", [.user (.cstr "hi"), .funcCallOutput (some "ok")], [], none, none⟩

/-- A registry with one other entity. -/
def c6crabs : List CrabInfo := [⟨"b", "Bob", "idle", 0⟩]

/-- A view populated with non-default data of the previously-active entity. -/
def c6stale : ViewState :=
  { initView with position := (1, 2), crabState := "thinking",
                  focusMode := true, activeCrab := "a" }

/-- A registry entry for entity "B". -/
def bCrabs : List CrabInfo := [⟨"B", "Bee", "idle", 0⟩]

/-- A bootstrap payload carrying no optional data. -/
def emptyBoot : BootData := ⟨[], none, none, none, none⟩

/-- Connect to A; A's channel closes (scheduling a reconnect timer); switch
to B; B's bootstrap completes (tearing A's channel down and opening B's).
The reconnect timer for A's channel is still pending at the end. -/
def acts7 : List NetAction :=
  [.connect "A", .chanClosed 0, .switchTo bCrabs "B", .bootDone 0 (some emptyBoot)]

/-- Connect to A, then switch to B: B's bootstrap is pending and A's
channel has not been torn down yet. -/
def acts8 : List NetAction := [.connect "A", .switchTo bCrabs "B"]

/-- Connect to A; A's channel closes (scheduling a reconnect timer); switch
to B.  B's bootstrap is still pending, and `switchCrab` has not replaced
`wsRef.current`, which still holds A's (closed) channel object. -/
def acts7a : List NetAction := [.connect "A", .chanClosed 0, .switchTo bCrabs "B"]

/-- The same trace with A's reconnect timer firing during the bootstrap
gap: the `wsRef.current === ws` guard still passes, so `connectWs("A")`
runs and opens a fresh channel to A although the active entity is B. -/
def acts7b : List NetAction :=
  [.connect "A", .chanClosed 0, .switchTo bCrabs "B", .timerFire 0]

/- ### Helper lemmas -/

theorem mem_of_mem_getLast? {α : Type} {l : List α} {a : α} (h : a ∈ l.getLast?) : a ∈ l := by
  obtain ⟨hl, hx⟩ := List.mem_getLast?_eq_getLast h
  exact hx ▸ List.getLast_mem hl

theorem foldl_pair {α β γ : Type} (f : β → α → β) (g : γ → α → γ) (l : List α) (b : β) (c : γ) :
    l.foldl (fun acc x => (f acc.1 x, g acc.2 x)) (b, c) = (l.foldl f b, l.foldl g c) := by
  induction l generalizing b c with
  | nil => rfl
  | cons x xs ih => simpa using ih (f b x) (g c x)

theorem foldl_override {α β : Type} (p : α → Bool) (f : α → β) (l : List α) (b : β) :
    l.foldl (fun acc x => if p x then f x else acc) b =
      (match (l.filter p).getLast? with
       | some x => f x
       | none => b) := by
  induction l generalizing b with
  | nil => rfl
  | cons x xs ih =>
    by_cases h : p x
    · rw [List.foldl_cons, if_pos h, ih, List.filter_cons_of_pos h]
      cases hxs : (xs.filter p).getLast? <;>
        simp [List.getLast?_cons, hxs]
    · rw [List.foldl_cons, if_neg h, ih, List.filter_cons_of_neg h]

/- ### Claim C2 -/

/-- Claim C2: processing one record from threaded cursor `seen`, the
reconciler resets the cursor to zero exactly when `seen` is at least the
record's input length — in that case every input item of the record is
classified and emitted — and otherwise emits the input items from index
`seen` on; every output item is classified and emitted; the cursor handed
to the rest of the log is `input.length + output.length`. -/
theorem c2_reset_detection (prev : Option ApiCall) (seen : Nat) (c : ApiCall)
    (rest : List ApiCall) :
    reconcileAux prev seen (c :: rest) =
      sysSegment prev c ++ dreamSegment prev c ++ planSegment prev c ++
      (if c.input.length ≤ seen
        then c.input.filterMap (fun it => renderInputItem it (phaseOf c))
        else (c.input.drop seen).filterMap (fun it => renderInputItem it (phaseOf c))) ++
      c.output.filterMap (fun it => renderOutputItem it (phaseOf c)) ++
      reconcileAux (some c) (c.input.length + c.output.length) rest := by
  by_cases h : c.input.length ≤ seen <;>
    simp [reconcileAux, plainSeg, resetSeen, h, List.append_assoc]

/- ### Claim C4 -/

/-- Claim C4 counterexample: on a content list whose first text part is
`"a"` followed by an empty text part, the code renders the `"[image]"`
placeholder (no image is present) where the claim's first-text-part rule
renders `"a"`; and on an empty content list the code emits an
`"[image]"` line where the claim drops the line. -/
theorem c4_counterexample :
    renderInputItem (.user (.cparts c4parts)) .normal =
      some ⟨.left, some "[image]", .normal, none, false⟩ ∧
    renderUserPartsSpec c4parts .normal =
      some ⟨.left, some "a", .normal, none, false⟩ ∧
    renderInputItem (.user (.cparts [])) .normal =
      some ⟨.left, some "[image]", .normal, none, false⟩ ∧
    renderUserPartsSpec [] .normal = none := by
  refine ⟨rfl, rfl, rfl, rfl⟩

/-- Claim C4 as amended: on a structured content list the classifier keeps
the LAST text part and the LAST image part (each matching part overwrites
the slot); the line's text falls back to `"[image]"` whenever the final
text slot is falsy, whether or not an image is present; a structured
subject item always yields a line (it is never dropped); a plain-text
subject item maps directly. -/
theorem c4_amended (parts : List ContentPart) (s : String) (phase : Phase) :
    renderInputItem (.user (.cparts parts)) phase =
      some ⟨.left,
            if truthy (lastTextSlot parts) then lastTextSlot parts else some "[image]",
            phase, lastImageSlot parts, false⟩ ∧
    renderInputItem (.user (.cstr s)) phase = some ⟨.left, some s, phase, none, false⟩ := by
  constructor
  · have hp := foldl_pair
      (fun acc (p : ContentPart) => if p.type = some "input_text" then p.text else acc)
      (fun acc (p : ContentPart) => if p.type = some "input_image" then p.image_url else acc)
      parts (some "") none
    have ht := foldl_override (fun p : ContentPart => p.type = some "input_text")
      (fun p => p.text) parts (some "")
    have hi := foldl_override (fun p : ContentPart => p.type = some "input_image")
      (fun p => p.image_url) parts none
    simp only [decide_eq_true_eq] at ht hi
    simp only [renderInputItem, hp, ht, hi, lastTextSlot, lastImageSlot]
    cases (List.filter (fun p => decide (p.type = some "input_text")) parts).getLast? <;>
      cases (List.filter (fun p => decide (p.type = some "input_image")) parts).getLast? <;>
        rfl
  · rfl

/- ### Claim C5 -/

/-- Claim C5: the end-to-end example.  Record 1 alone reconciles to
system(instructions), subject "hi", agent "hello" flagged as respond, with
cursor 2; record 2's input length 2 does not exceed the cursor, so the
reset fires and both of its input items are re-rendered; the final cursor
is again 2. -/
theorem c5_end_to_end :
    reconcile [c5rec1] =
      [⟨.system, some "sys", .normal, none, false⟩,
       ⟨.left, some "hi", .normal, none, false⟩,
       ⟨.right, some "hello", .normal, none, true⟩] ∧
    finalSeen [c5rec1] = 2 ∧
    c5rec2.input.length ≤ finalSeen [c5rec1] ∧
    reconcile [c5rec1, c5rec2] =
      [⟨.system, some "sys", .normal, none, false⟩,
       ⟨.left, some "hi", .normal, none, false⟩,
       ⟨.right, some "hello", .normal, none, true⟩,
       ⟨.left, some "hi", .normal, none, false⟩,
       ⟨.left, some "ok", .normal, none, false⟩] ∧
    finalSeen [c5rec1, c5rec2] = 2 := by
  exact ⟨rfl, rfl, by decide, rfl, rfl⟩

/- ### Claim C6 -/

/-- Claim C6 counterexample: switching away from an entity whose view holds
a non-default position, coarse state and focus-mode flag leaves all three
unchanged — the switch does NOT reset them to their defaults, so the view
can show stale data of the previous entity until bootstrap completes. -/
theorem c6_counterexample :
    (switchCrab c6crabs "b" c6stale).position = (1, 2) ∧
    (switchCrab c6crabs "b" c6stale).position ≠ initView.position ∧
    (switchCrab c6crabs "b" c6stale).crabState = "thinking" ∧
    (switchCrab c6crabs "b" c6stale).focusMode = true := by
  refine ⟨rfl, by decide, rfl, rfl⟩

/-- Claim C6 as amended: switching to a different entity synchronously
resets the conversation-active flag, the countdown, the alert flag, the
activity and the unseen-transcript flag to their defaults and installs the
new id (plus the registry name when known), while position, coarse state,
focus-mode flag and the record log are left unchanged until the
asynchronous bootstrap overwrites them. -/
theorem c6_amended (crabs : List CrabInfo) (crabId : String) (s : ViewState)
    (h : crabId ≠ s.activeCrab) :
    (switchCrab crabs crabId s).conversing = false ∧
    (switchCrab crabs crabId s).countdown = 0 ∧
    (switchCrab crabs crabId s).alert = false ∧
    (switchCrab crabs crabId s).activity = ⟨"idle", ""⟩ ∧
    (switchCrab crabs crabId s).hasNew = false ∧
    (switchCrab crabs crabId s).activeCrab = crabId ∧
    (switchCrab crabs crabId s).position = s.position ∧
    (switchCrab crabs crabId s).crabState = s.crabState ∧
    (switchCrab crabs crabId s).focusMode = s.focusMode ∧
    (switchCrab crabs crabId s).calls = s.calls ∧
    (switchCrab crabs crabId s).crabName =
      (match crabs.find? (fun c => c.id = crabId) with
       | some crab => crab.name
       | none => s.crabName) := by
  unfold switchCrab
  rw [if_neg h]
  cases crabs.find? (fun c => c.id = crabId) <;> simp

/-- Claim C6 amended, witnessed at the stale view. -/
theorem c6_amended_witness :
    "b" ≠ c6stale.activeCrab ∧
    ((switchCrab c6crabs "b" c6stale).conversing = false ∧
     (switchCrab c6crabs "b" c6stale).countdown = 0 ∧
     (switchCrab c6crabs "b" c6stale).alert = false ∧
     (switchCrab c6crabs "b" c6stale).activity = ⟨"idle", ""⟩ ∧
     (switchCrab c6crabs "b" c6stale).hasNew = false ∧
     (switchCrab c6crabs "b" c6stale).activeCrab = "b" ∧
     (switchCrab c6crabs "b" c6stale).position = c6stale.position ∧
     (switchCrab c6crabs "b" c6stale).crabState = c6stale.crabState ∧
     (switchCrab c6crabs "b" c6stale).focusMode = c6stale.focusMode ∧
     (switchCrab c6crabs "b" c6stale).calls = c6stale.calls ∧
     (switchCrab c6crabs "b" c6stale).crabName =
       (match c6crabs.find? (fun c => c.id = "b") with
        | some crab => crab.name
        | none => c6stale.crabName)) :=
  ⟨by decide, c6_amended c6crabs "b" c6stale (by decide)⟩

/- ### Claim C9 -/

/-- Claim C9 counterexample: after `waiting 2` and two ticks the countdown
has reached zero and the tick source has stopped, but the conversing flag
is still set — expiry does not clear it. -/
theorem c9_counterexample :
    cdRun [.waiting 2, .tick, .tick] initCd = ⟨true, 0, false⟩ := by
  decide

/-- Claim C9 as amended: a `waiting t` event sets the countdown to `t` and
(when the conversing flag actually changes, re-running the effect) starts
ticking iff `t` is positive; a tick in the ticking state decrements the
countdown by one, clamping values of at most one to zero and stopping the
tick source; with the tick source stopped a tick changes nothing; `ended`
clears the flag and the countdown; a tick never changes the conversing
flag, and a decrement only happens from a countdown of at least two, so
the countdown never goes below zero from a nonnegative value. -/
theorem c9_amended (s : CdState) (t : Int) :
    cdStep (.waiting t) s =
      ⟨true, t, if s.conversing then s.ticking else decide (0 < t)⟩ ∧
    cdStep .tick s =
      (if s.ticking then
        (if s.countdown ≤ 1 then ⟨s.conversing, 0, false⟩
         else ⟨s.conversing, s.countdown - 1, s.ticking⟩)
       else s) ∧
    cdStep .ended s = ⟨false, 0, if s.conversing then false else s.ticking⟩ ∧
    (cdStep .tick s).conversing = s.conversing ∧
    ((cdStep .tick s).countdown = 0 ∨ (cdStep .tick s).countdown = s.countdown ∨
      ((cdStep .tick s).countdown = s.countdown - 1 ∧ 2 ≤ s.countdown)) := by
  obtain ⟨cv, cd, tk⟩ := s
  refine ⟨?_, ?_, ?_, ?_, ?_⟩ <;>
    cases cv <;> cases tk <;> by_cases h : cd ≤ 1 <;>
      simp [cdStep, h] <;> omega

/- ### Claim C1 -/

theorem map_snd_inputSeg (ph : Phase) (i : Nat) :
    ∀ (xs : List (Nat × InputItem)),
    ((xs.filterMap (fun ji => (renderInputItem ji.2 ph).map (fun m => (Tag.inputTag i ji.1, m)))).map
      Prod.snd) = xs.filterMap (fun ji => renderInputItem ji.2 ph) := by
  intro xs
  induction xs with
  | nil => rfl
  | cons x xs ih =>
    cases h : renderInputItem x.2 ph <;> simp [List.filterMap_cons, h, ih]

theorem map_snd_outputSeg (ph : Phase) (i : Nat) :
    ∀ (xs : List (Nat × OutputItem)),
    ((xs.filterMap (fun ji => (renderOutputItem ji.2 ph).map (fun m => (Tag.outputTag i ji.1, m)))).map
      Prod.snd) = xs.filterMap (fun ji => renderOutputItem ji.2 ph) := by
  intro xs
  induction xs with
  | nil => rfl
  | cons x xs ih =>
    cases h : renderOutputItem x.2 ph <;> simp [List.filterMap_cons, h, ih]

theorem inputSeg_enumFrom (ph : Phase) :
    ∀ (l : List InputItem) (n : Nat),
      (List.enumFrom n l).filterMap (fun ji => renderInputItem ji.2 ph) =
        l.filterMap (fun it => renderInputItem it ph) := by
  intro l
  induction l with
  | nil => intro n; rfl
  | cons x xs ih =>
    intro n
    cases h : renderInputItem x ph <;> simp [List.enumFrom, List.filterMap_cons, h, ih]

theorem outputSeg_enumFrom (ph : Phase) :
    ∀ (l : List OutputItem) (n : Nat),
      (List.enumFrom n l).filterMap (fun ji => renderOutputItem ji.2 ph) =
        l.filterMap (fun it => renderOutputItem it ph) := by
  intro l
  induction l with
  | nil => intro n; rfl
  | cons x xs ih =>
    intro n
    cases h : renderOutputItem x ph <;> simp [List.enumFrom, List.filterMap_cons, h, ih]

theorem taggedSeg_map_snd (prev : Option ApiCall) (seen i : Nat) (c : ApiCall) :
    (taggedSeg prev seen i c).map Prod.snd = plainSeg prev seen c := by
  unfold taggedSeg plainSeg
  simp only [List.map_append]
  rw [map_snd_inputSeg (phaseOf c) i, map_snd_outputSeg (phaseOf c) i,
      inputSeg_enumFrom,
      show c.output.enum = List.enumFrom 0 c.output from rfl,
      outputSeg_enumFrom]
  simp

theorem reconcileTaggedAux_faithful (calls : List ApiCall) :
    ∀ (prev : Option ApiCall) (seen i : Nat),
      (reconcileTaggedAux prev seen i calls).map Prod.snd = reconcileAux prev seen calls := by
  induction calls with
  | nil => intro prev seen i; rfl
  | cons c rest ih =>
    intro prev seen i
    simp [reconcileTaggedAux, reconcileAux, taggedSeg_map_snd, ih]

theorem outputEvents_tagMap (l : List Msg) (t : Tag)
    (htall : ∀ m : Msg, outMatch (t, m) = none) :
    (l.map (fun m => (t, m))).filterMap outMatch = [] := by
  rw [List.filterMap_map]
  exact List.filterMap_eq_nil_iff.mpr (fun m _ => htall m)

theorem outputEvents_inputSeg (xs : List (Nat × InputItem)) (ph : Phase) (i : Nat) :
    ((xs.filterMap (fun ji => (renderInputItem ji.2 ph).map (fun m => (Tag.inputTag i ji.1, m)))).filterMap
      outMatch) = [] := by
  rw [List.filterMap_filterMap]
  refine List.filterMap_eq_nil_iff.mpr (fun ji _ => ?_)
  cases renderInputItem ji.2 ph <;> rfl

theorem outMatch_outputTag (i j : Nat) (m : Msg) :
    outMatch (Tag.outputTag i j, m) = some (i, j, m) := rfl

theorem outputEvents_outputSeg (ph : Phase) (i : Nat) :
    ∀ (xs : List (Nat × OutputItem)),
    ((xs.filterMap (fun ji => (renderOutputItem ji.2 ph).map (fun m => (Tag.outputTag i ji.1, m)))).filterMap
      outMatch) =
      xs.filterMap (fun ji => (renderOutputItem ji.2 ph).map (fun m => (i, ji.1, m))) := by
  intro xs
  induction xs with
  | nil => rfl
  | cons x xs ih =>
    cases h : renderOutputItem x.2 ph <;>
      simp [List.filterMap_cons, h, ih, outMatch_outputTag]

theorem outputEvents_append (a b : List (Tag × Msg)) :
    outputEvents (a ++ b) = outputEvents a ++ outputEvents b := by
  unfold outputEvents
  exact List.filterMap_append a b outMatch

theorem outputEvents_taggedSeg (prev : Option ApiCall) (seen i : Nat) (c : ApiCall) :
    outputEvents (taggedSeg prev seen i c) =
      c.output.enum.filterMap
        (fun ji => (renderOutputItem ji.2 (phaseOf c)).map (fun m => (i, ji.1, m))) := by
  unfold taggedSeg
  rw [outputEvents_append, outputEvents_append, outputEvents_append, outputEvents_append]
  unfold outputEvents
  rw [outputEvents_tagMap (sysSegment prev c) (Tag.sysTag i) (fun _ => rfl),
      outputEvents_tagMap (dreamSegment prev c) (Tag.dreamTag i) (fun _ => rfl),
      outputEvents_tagMap (planSegment prev c) (Tag.planTag i) (fun _ => rfl),
      outputEvents_inputSeg, outputEvents_outputSeg]
  simp

theorem outputEvents_aux (calls : List ApiCall) :
    ∀ (prev : Option ApiCall) (seen i : Nat),
      outputEvents (reconcileTaggedAux prev seen i calls) = expectedOutputs i calls := by
  induction calls with
  | nil => intro prev seen i; rfl
  | cons c rest ih =>
    intro prev seen i
    rw [reconcileTaggedAux, outputEvents_append, outputEvents_taggedSeg, ih, expectedOutputs]

theorem outSeg_cons_none {ph : Phase} {i0 n : Nat} {x : OutputItem} {xs : List OutputItem}
    (h : renderOutputItem x ph = none) :
    outSeg ph i0 n (x :: xs) = outSeg ph i0 (n + 1) xs := by
  unfold outSeg
  rw [List.enumFrom, List.filterMap_cons_none (by rw [h]; rfl)]

theorem outSeg_cons_some {ph : Phase} {i0 n : Nat} {x : OutputItem} {xs : List OutputItem}
    {m : Msg} (h : renderOutputItem x ph = some m) :
    outSeg ph i0 n (x :: xs) = (i0, n, m) :: outSeg ph i0 (n + 1) xs := by
  unfold outSeg
  rw [List.enumFrom, List.filterMap_cons_some (by rw [h]; rfl)]

theorem outSeg_mem (ph : Phase) (i0 : Nat) (l : List OutputItem) :
    ∀ n e, e ∈ outSeg ph i0 n l → e.1 = i0 ∧ n ≤ e.2.1 := by
  induction l with
  | nil => intro n e h; simp [outSeg, List.enumFrom] at h
  | cons x xs ih =>
    intro n e h
    cases hr : renderOutputItem x ph with
    | none =>
      rw [outSeg_cons_none hr] at h
      have := ih (n + 1) e h
      exact ⟨this.1, by omega⟩
    | some m =>
      rw [outSeg_cons_some hr] at h
      rcases List.mem_cons.mp h with h1 | h2
      · subst h1; exact ⟨rfl, Nat.le_refl n⟩
      · have := ih (n + 1) e h2
        exact ⟨this.1, by omega⟩

theorem outSeg_chain (ph : Phase) (i0 : Nat) (l : List OutputItem) :
    ∀ n, List.Chain' outLt (outSeg ph i0 n l) := by
  induction l with
  | nil => intro n; simp [outSeg, List.enumFrom]
  | cons x xs ih =>
    intro n
    cases hr : renderOutputItem x ph with
    | none => rw [outSeg_cons_none hr]; exact ih (n + 1)
    | some m =>
      rw [outSeg_cons_some hr, List.chain'_cons']
      refine ⟨?_, ih (n + 1)⟩
      intro y hy
      have hmem := outSeg_mem ph i0 xs (n + 1) y (List.mem_of_mem_head? hy)
      refine Or.inr ⟨hmem.1.symm, ?_⟩
      show n < y.2.1
      omega

theorem expectedOutputs_bound (calls : List ApiCall) :
    ∀ i0 e, e ∈ expectedOutputs i0 calls → i0 ≤ e.1 := by
  induction calls with
  | nil => intro i0 e h; simp [expectedOutputs] at h
  | cons c rest ih =>
    intro i0 e h
    rw [expectedOutputs] at h
    rcases List.mem_append.mp h with h1 | h2
    · have : e ∈ outSeg (phaseOf c) i0 0 c.output := h1
      exact (outSeg_mem _ _ _ 0 e this).1.ge
    · have := ih (i0 + 1) e h2
      omega

theorem expectedOutputs_chain (calls : List ApiCall) :
    ∀ i0, List.Chain' outLt (expectedOutputs i0 calls) := by
  induction calls with
  | nil => intro i0; simp [expectedOutputs]
  | cons c rest ih =>
    intro i0
    rw [expectedOutputs]
    refine List.Chain'.append (outSeg_chain (phaseOf c) i0 c.output 0) (ih (i0 + 1)) ?_
    intro x hx y hy
    have hx' := outSeg_mem (phaseOf c) i0 c.output 0 x (mem_of_mem_getLast? hx)
    have hy' := expectedOutputs_bound rest (i0 + 1) y (List.mem_of_mem_head? hy)
    exact Or.inl (by omega)

/-- Claim C1: the provenance-tagged reconciler matches the real one line
for line; its output-item events are exactly the canonical per-record
enumeration `expectedOutputs` — every classified output item of every
record, exactly once, independent of the `seen` cursor — and those events
are strictly increasing in (record index, item index), i.e. in record
order then intra-record order with no repetition. -/
theorem c1_exactly_once_outputs (calls : List ApiCall) :
    (reconcileTagged calls).map Prod.snd = reconcile calls ∧
    outputEvents (reconcileTagged calls) = expectedOutputs 0 calls ∧
    List.Chain' outLt (outputEvents (reconcileTagged calls)) := by
  refine ⟨reconcileTaggedAux_faithful calls none 0 0, outputEvents_aux calls none 0 0, ?_⟩
  rw [reconcileTagged, outputEvents_aux]
  exact expectedOutputs_chain calls 0

/- ### Claim C3 -/

theorem sysMatch_sysTag (i : Nat) (m : Msg) : sysMatch (Tag.sysTag i, m) = some i := rfl

theorem sysEvents_append (a b : List (Tag × Msg)) :
    sysEvents (a ++ b) = sysEvents a ++ sysEvents b := by
  unfold sysEvents
  exact List.filterMap_append a b sysMatch

theorem sysEvents_tagMap_none (l : List Msg) (t : Tag)
    (h : ∀ m : Msg, sysMatch (t, m) = none) :
    (l.map (fun m => (t, m))).filterMap sysMatch = [] := by
  rw [List.filterMap_map]
  exact List.filterMap_eq_nil_iff.mpr (fun m _ => h m)

theorem sysEvents_inputSeg (ph : Phase) (i : Nat) :
    ∀ (xs : List (Nat × InputItem)),
    ((xs.filterMap (fun ji => (renderInputItem ji.2 ph).map (fun m => (Tag.inputTag i ji.1, m)))).filterMap
      sysMatch) = [] := by
  intro xs
  rw [List.filterMap_filterMap]
  refine List.filterMap_eq_nil_iff.mpr (fun ji _ => ?_)
  cases renderInputItem ji.2 ph <;> rfl

theorem sysEvents_outputSeg (ph : Phase) (i : Nat) :
    ∀ (xs : List (Nat × OutputItem)),
    ((xs.filterMap (fun ji => (renderOutputItem ji.2 ph).map (fun m => (Tag.outputTag i ji.1, m)))).filterMap
      sysMatch) = [] := by
  intro xs
  rw [List.filterMap_filterMap]
  refine List.filterMap_eq_nil_iff.mpr (fun ji _ => ?_)
  cases renderOutputItem ji.2 ph <;> rfl

theorem sysEvents_taggedSeg (prev : Option ApiCall) (seen i : Nat) (c : ApiCall) :
    sysEvents (taggedSeg prev seen i c) = if sysCond prev c then [i] else [] := by
  unfold sysEvents taggedSeg
  simp only [List.filterMap_append]
  rw [sysEvents_tagMap_none (dreamSegment prev c) (Tag.dreamTag i) (fun _ => rfl),
      sysEvents_tagMap_none (planSegment prev c) (Tag.planTag i) (fun _ => rfl),
      sysEvents_inputSeg, sysEvents_outputSeg]
  by_cases h : sysCond prev c <;> simp [sysSegment, h, sysMatch_sysTag]

theorem sysEvents_aux (calls : List ApiCall) :
    ∀ (prev : Option ApiCall) (seen i : Nat),
      sysEvents (reconcileTaggedAux prev seen i calls) = sysIdx prev i calls := by
  induction calls with
  | nil => intro prev seen i; rfl
  | cons c rest ih =>
    intro prev seen i
    rw [reconcileTaggedAux, sysEvents_append, sysEvents_taggedSeg, ih, sysIdx]

theorem sysIdx_ge (calls : List ApiCall) :
    ∀ (prev : Option ApiCall) (i0 k : Nat), k ∈ sysIdx prev i0 calls → i0 ≤ k := by
  induction calls with
  | nil => intro prev i0 k h; simp [sysIdx] at h
  | cons c rest ih =>
    intro prev i0 k h
    rw [sysIdx] at h
    rcases List.mem_append.mp h with h1 | h2
    · by_cases hc : sysCond prev c
      · rw [if_pos hc] at h1; simp at h1; omega
      · rw [if_neg hc] at h1; simp at h1
    · have := ih (some c) (i0 + 1) k h2; omega

theorem sysIdx_mem (calls : List ApiCall) :
    ∀ (prev : Option ApiCall) (i0 i : Nat) (c : ApiCall), calls.get? i = some c →
      ((i0 + i) ∈ sysIdx prev i0 calls ↔
        sysCond (if i = 0 then prev else calls.get? (i - 1)) c = true) := by
  induction calls with
  | nil => intro prev i0 i c h; simp at h
  | cons c0 rest ih =>
    intro prev i0 i c h
    cases i with
    | zero =>
      have hc : c0 = c := by simpa using h
      subst hc
      have hnot : i0 ∉ sysIdx (some c0) (i0 + 1) rest := fun hm => by
        have := sysIdx_ge rest (some c0) (i0 + 1) i0 hm
        omega
      by_cases hc0 : sysCond prev c0 <;> simp [sysIdx, hc0, hnot]
    | succ j =>
      have h' : rest.get? j = some c := by simpa using h
      have base := ih (some c0) (i0 + 1) j c h'
      have hprev : (if j = 0 then some c0 else rest.get? (j - 1)) = (c0 :: rest).get? j := by
        cases j with
        | zero => rfl
        | succ j' => simp
      have htarget :
          (if j + 1 = 0 then prev else (c0 :: rest).get? (j + 1 - 1)) =
            (if j = 0 then some c0 else rest.get? (j - 1)) := by
        rw [if_neg (by omega : ¬ j + 1 = 0), Nat.add_sub_cancel]
        exact hprev.symm
      rw [htarget, sysIdx, List.mem_append]
      have hhead : (i0 + (j + 1)) ∉ (if sysCond prev c0 then [i0] else ([] : List Nat)) := by
        by_cases hc0 : sysCond prev c0 <;> simp [hc0]
      have harith : i0 + (j + 1) = (i0 + 1) + j := by omega
      rw [harith] at hhead ⊢
      constructor
      · rintro (h1 | h2)
        · exact absurd h1 hhead
        · exact base.mp h2
      · intro hc
        exact Or.inr (base.mpr hc)

theorem phaseOf_normal_iff (c : ApiCall) :
    phaseOf c = .normal ↔
      (c.is_dream.getD false = false ∧ c.is_planning.getD false = false) := by
  unfold phaseOf
  by_cases hd : c.is_dream.getD false <;> by_cases hp : c.is_planning.getD false <;>
    simp [hd, hp]

/-- Claim C3 counterexample: in the log [normal "A", dream "B", normal "A"]
the third record is normal-phase, is not the first record, and its stripped
instructions equal the previous NORMAL-phase record's stripped
instructions, yet the code emits a system divider for it (three system
lines in total) — because the code compares against the immediately
preceding record (the dream record with instructions "B"), not against the
previous normal-phase record. -/
theorem c3_counterexample :
    c3calls.get? 2 = some ⟨"", "A", [], [], none, none⟩ ∧
    phaseOf ⟨"", "A", [], [], none, none⟩ = .normal ∧
    prevNormalInstr c3calls 2 = some "A" ∧
    strip "A" = strip "A" ∧
    2 ∈ sysEvents (reconcileTagged c3calls) ∧
    ((reconcile c3calls).filter (fun m => m.side = .system)).length = 3 := by
  refine ⟨rfl, rfl, rfl, rfl, by decide, rfl⟩

/-- Claim C3 as amended: a system divider is emitted for record `i` iff
the record is normal-phase, and it is the first record or its stripped
instructions differ from the stripped instructions of the IMMEDIATELY
preceding record in the log (whatever that record's phase).  In
particular, for two consecutive normal-phase records differing only in a
volatile line, the second divider is suppressed. -/
theorem c3_system_divider (calls : List ApiCall) (i : Nat) (c : ApiCall)
    (h : calls.get? i = some c) :
    (i ∈ sysEvents (reconcileTagged calls) ↔
      (phaseOf c = .normal ∧
        (i = 0 ∨
          strip c.instructions ≠
            strip (((calls.get? (i - 1)).map (fun p => p.instructions)).getD "")))) := by
  rw [reconcileTagged, sysEvents_aux]
  have hmem := sysIdx_mem calls none 0 i c h
  rw [Nat.zero_add] at hmem
  rw [hmem]
  cases i with
  | zero =>
    simp [sysCond, phaseOf_normal_iff]
  | succ j =>
    have hlen : j + 1 < calls.length := by
      rcases List.get?_eq_some.mp h with ⟨hl, _⟩
      exact hl
    obtain ⟨p, hp⟩ : ∃ p, calls.get? j = some p := by
      cases hq : calls.get? j with
      | none =>
        have := List.get?_eq_none.mp hq
        omega
      | some p => exact ⟨p, rfl⟩
    rw [show j + 1 - 1 = j from rfl, hp, if_neg (by omega : ¬ j + 1 = 0)]
    simp [sysCond, phaseOf_normal_iff, and_assoc]

/-- Claim C3 amended, witnessed at two normal records whose instructions
differ only in the "Right now it is ..." line: the conclusion instantiates
to an iff whose right side is false (the stripped instructions agree), so
no second divider is emitted. -/
theorem c3_system_divider_witness :
    c3wcalls.get? 1 = some c3w2 ∧
    ((1 ∈ sysEvents (reconcileTagged c3wcalls)) ↔
      (phaseOf c3w2 = .normal ∧
        (1 = 0 ∨
          strip c3w2.instructions ≠
            strip (((c3wcalls.get? (1 - 1)).map (fun p => p.instructions)).getD "")))) :=
  ⟨rfl, c3_system_divider c3wcalls 1 c3w2 rfl⟩

/- ### Claims C7 and C8: channel lifecycle invariant -/

theorem chanInv_initNet : ChanInv initNet := by
  refine ⟨?_, ?_, ?_⟩ <;> simp [initNet, ChanInv]

theorem closeCurrent_wsRef (s : NetState) : (closeCurrent s).wsRef = none := by
  unfold closeCurrent
  cases h : s.wsRef with
  | none => exact h
  | some cid => rfl

theorem closeCurrent_nextId (s : NetState) : (closeCurrent s).nextId = s.nextId := by
  unfold closeCurrent
  cases s.wsRef <;> rfl

theorem closeCurrent_chans_ids (s : NetState) :
    (closeCurrent s).chans.map (fun c => c.id) = s.chans.map (fun c => c.id) := by
  unfold closeCurrent
  cases s.wsRef with
  | none => rfl
  | some cid =>
    simp only [List.map_map]
    apply List.map_congr_left
    intro c _
    by_cases h : c.id = cid <;> simp [h]

theorem closeCurrent_chans_closed {s : NetState} (h : ChanInv s) :
    ∀ c ∈ (closeCurrent s).chans, c.attached = false ∧ c.closed = true := by
  unfold closeCurrent
  cases hw : s.wsRef with
  | none =>
    intro c hc
    exact h.1 c hc (by simp [hw])
  | some cid =>
    intro c hc
    rcases List.mem_map.mp hc with ⟨d, hd, rfl⟩
    by_cases hdc : d.id = cid
    · simp [hdc]
    · simp only [hdc, if_neg, ite_false]
      refine h.1 d hd ?_
      rw [hw]
      intro heq
      exact hdc (Option.some.inj heq).symm

theorem closeCurrent_ids_lt {s : NetState} (h : ChanInv s) :
    ∀ c ∈ (closeCurrent s).chans, c.id < s.nextId := by
  intro c hc
  have hmem : c.id ∈ (closeCurrent s).chans.map (fun c => c.id) :=
    List.mem_map_of_mem _ hc
  rw [closeCurrent_chans_ids] at hmem
  rcases List.mem_map.mp hmem with ⟨d, hd, hde⟩
  rw [← hde]
  exact h.2.1 d hd

theorem chanInv_connectWsStep (crabId : String) {s : NetState} (h : ChanInv s) :
    ChanInv (connectWsStep crabId s) := by
  have hchans : (connectWsStep crabId s).chans =
      (closeCurrent s).chans ++ [⟨(closeCurrent s).nextId, crabId, true, false⟩] := rfl
  have hws : (connectWsStep crabId s).wsRef = some (closeCurrent s).nextId := rfl
  have hnext : (connectWsStep crabId s).nextId = (closeCurrent s).nextId + 1 := rfl
  refine ⟨?_, ?_, ?_⟩
  · intro c hc hne
    rw [hchans] at hc
    rw [hws] at hne
    rcases List.mem_append.mp hc with h1 | h2
    · exact closeCurrent_chans_closed h c h1
    · simp only [List.mem_singleton] at h2
      subst h2
      exact (hne rfl).elim
  · intro c hc
    rw [hchans] at hc
    rw [hnext, closeCurrent_nextId]
    rcases List.mem_append.mp hc with h1 | h2
    · have hlt := closeCurrent_ids_lt h c h1
      omega
    · simp only [List.mem_singleton] at h2
      subst h2
      show (closeCurrent s).nextId < s.nextId + 1
      rw [closeCurrent_nextId]
      omega
  · rw [hchans, List.map_append, closeCurrent_chans_ids, List.nodup_append]
    refine ⟨h.2.2, List.nodup_singleton _, ?_⟩
    intro a ha hb
    simp only [List.map_cons, List.map_nil, List.mem_singleton] at hb
    rcases List.mem_map.mp ha with ⟨d, hd, hde⟩
    have hlt := h.2.1 d hd
    have hb' : a = s.nextId := by
      rw [← closeCurrent_nextId s]
      exact hb
    omega

theorem chanInv_closedUpd (cid : Nat) {s : NetState} (h : ChanInv s) :
    ChanInv { s with chans := closeChan cid s.chans } := by
  unfold closeChan
  have hid : ∀ d : Chan, (if d.id = cid then { d with closed := true } else d).id = d.id := by
    intro d
    by_cases hd : d.id = cid <;> simp [hd]
  have hids : (s.chans.map (fun d => if d.id = cid then { d with closed := true } else d)).map (fun c => c.id) =
      s.chans.map (fun c => c.id) := by
    rw [List.map_map]
    exact List.map_congr_left (fun d _ => hid d)
  refine ⟨?_, ?_, ?_⟩
  · intro c hc hne
    rcases List.mem_map.mp hc with ⟨d, hd, rfl⟩
    have hne2 : s.wsRef ≠ some d.id := by
      rw [← hid d]
      exact hne
    have hdp := h.1 d hd hne2
    by_cases hdc : d.id = cid <;> simp [hdc, hdp.1, hdp.2]
  · intro c hc
    rcases List.mem_map.mp hc with ⟨d, hd, rfl⟩
    rw [hid d]
    exact h.2.1 d hd
  · rw [hids]
    exact h.2.2

theorem chanInv_netStep (a : NetAction) {s : NetState} (h : ChanInv s) :
    ChanInv (netStep a s) := by
  cases a with
  | connect crabId => exact chanInv_connectWsStep crabId h
  | switchTo crabs crabId =>
    show ChanInv (switchToStep crabs crabId s)
    unfold switchToStep
    by_cases heq : crabId = s.view.activeCrab
    · rw [if_pos heq]; exact h
    · rw [if_neg heq]; exact h
  | bootDone idx d =>
    show ChanInv (bootDoneStep idx d s)
    unfold bootDoneStep
    repeat' split
    all_goals first
      | exact h
      | exact chanInv_connectWsStep _ h
  | chanClosed cid =>
    show ChanInv (chanClosedStep cid s)
    unfold chanClosedStep
    repeat' split
    all_goals first
      | exact h
      | exact chanInv_closedUpd cid h
  | timerFire idx =>
    show ChanInv (timerFireStep idx s)
    unfold timerFireStep
    repeat' split
    all_goals first
      | exact h
      | exact chanInv_connectWsStep _ h
  | deliver cid e =>
    show ChanInv (deliverStep cid e s)
    unfold deliverStep
    repeat' split
    all_goals first
      | exact h

theorem chanInv_netRun_of (acts : List NetAction) :
    ∀ {s : NetState}, ChanInv s → ChanInv (netRun acts s) := by
  induction acts with
  | nil => intro s h; exact h
  | cons a acts ih =>
    intro s h
    exact ih (chanInv_netStep a h)

theorem chanInv_netRun (acts : List NetAction) : ChanInv (netRun acts initNet) :=
  chanInv_netRun_of acts chanInv_initNet

theorem open_le_one_of_key (cid : Nat) :
    ∀ l : List Chan, (l.map (fun c => c.id)).Nodup →
      (∀ c ∈ l, c.closed = false → c.id = cid) →
      (l.filter (fun c => !c.closed)).length ≤ 1 := by
  intro l
  induction l with
  | nil => intro _ _; simp
  | cons c cs ih =>
    intro hnd hall
    have hnd' : (cs.map (fun c => c.id)).Nodup := by
      simp only [List.map_cons, List.nodup_cons] at hnd
      exact hnd.2
    by_cases hc : c.closed
    · rw [List.filter_cons_of_neg (by simp [hc])]
      exact ih hnd' (fun d hd => hall d (List.mem_cons_of_mem c hd))
    · rw [List.filter_cons_of_pos (by simp [hc])]
      have hcs : cs.filter (fun c => !c.closed) = [] := by
        rw [List.filter_eq_nil_iff]
        intro d hd hdo
        have hdid : d.id = cid := hall d (List.mem_cons_of_mem c hd) (by simpa using hdo)
        have hcid : c.id = cid := hall c (List.mem_cons_self c cs) (by simpa using hc)
        simp only [List.map_cons, List.nodup_cons] at hnd
        exact hnd.1 (by rw [hcid, ← hdid]; exact List.mem_map_of_mem _ hd)
      rw [hcs]
      simp


/-- Claim C7 counterexample: `switchCrab` never touches `wsRef.current`
(only `connectWs`, after the bootstrap resolves, replaces it), so after
[connect A, A's channel closes, switch to B] the pending reconnect timer
for A's channel still satisfies the `wsRef.current === ws` guard; firing
it during the bootstrap gap runs `connectWs("A")` and opens a fresh
channel to A — A's delayed reconnect DOES create a new channel after the
switch, while the active entity is B and B's bootstrap is still pending. -/
theorem c7_counterexample :
    (netRun acts7a initNet).view.activeCrab = "B" ∧
    (netRun acts7a initNet).pendingBoots = ["B"] ∧
    (netRun acts7a initNet).timers = [(0, "A")] ∧
    (netRun acts7a initNet).wsRef = some 0 ∧
    (netRun acts7b initNet).chans =
      [⟨0, "A", false, true⟩, ⟨1, "A", true, false⟩] ∧
    (netRun acts7b initNet).wsRef = some 1 ∧
    (netRun acts7b initNet).view.activeCrab = "B" ∧
    (netRun acts7b initNet).pendingBoots = ["B"] := by
  refine ⟨rfl, rfl, rfl, rfl, rfl, rfl, rfl, rfl⟩

/-- Claim C7 as amended: there is never more than one open channel — also
when a zombie timer reconnects, since `connectWs` closes the current
channel first — and the reconnect guard tests only whether the channel
object that closed is still `wsRef.current`: when it no longer is (the
new entity's `connectWs` has replaced it), the firing timer only removes
itself, creating no channel; when it still is — which includes the whole
gap between `switchCrab` and the new entity's bootstrap completing,
because the switch itself does not replace `wsRef.current` — the timer
reconnects to the OLD entity's id. -/
theorem c7_amended_reconnect_guard (acts : List NetAction) (idx cid : Nat) (crab : String)
    (ht : (netRun acts initNet).timers.get? idx = some (cid, crab)) :
    ((netRun acts initNet).chans.filter (fun c => !c.closed)).length ≤ 1 ∧
    ((netRun acts initNet).wsRef ≠ some cid →
      netStep (.timerFire idx) (netRun acts initNet) =
        { netRun acts initNet with timers := (netRun acts initNet).timers.eraseIdx idx }) ∧
    ((netRun acts initNet).wsRef = some cid →
      netStep (.timerFire idx) (netRun acts initNet) =
        connectWsStep crab
          { netRun acts initNet with timers := (netRun acts initNet).timers.eraseIdx idx }) := by
  have hinv := chanInv_netRun acts
  refine ⟨?_, ?_, ?_⟩
  · cases hw : (netRun acts initNet).wsRef with
    | none =>
      have hnil : (netRun acts initNet).chans.filter (fun c => !c.closed) = [] := by
        rw [List.filter_eq_nil_iff]
        intro c hc hopen
        have hcc := hinv.1 c hc (by rw [hw]; simp)
        simp [hcc.2] at hopen
      rw [hnil]
      simp
    | some cid0 =>
      apply open_le_one_of_key cid0 (netRun acts initNet).chans hinv.2.2
      intro c hc hco
      by_contra hne
      have hcc := hinv.1 c hc (by rw [hw]; intro he; exact hne (Option.some.inj he).symm)
      rw [hco] at hcc
      exact absurd hcc.2 (by decide)
  · intro hs
    show timerFireStep idx (netRun acts initNet) = _
    unfold timerFireStep
    simp only [ht]
    rw [if_neg hs]
  · intro hs
    show timerFireStep idx (netRun acts initNet) = _
    unfold timerFireStep
    simp only [ht]
    rw [if_pos hs]

/-- Claim C7 amended, witnessed along the trace `acts7`: after B's
bootstrap completed, A's stale timer fires into a no-op removal (the
stale branch of the guard characterization). -/
theorem c7_amended_witness :
    (netRun acts7 initNet).timers.get? 0 = some (0, "A") ∧
    (((netRun acts7 initNet).chans.filter (fun c => !c.closed)).length ≤ 1 ∧
     ((netRun acts7 initNet).wsRef ≠ some 0 →
       netStep (.timerFire 0) (netRun acts7 initNet) =
         { netRun acts7 initNet with timers := (netRun acts7 initNet).timers.eraseIdx 0 }) ∧
     ((netRun acts7 initNet).wsRef = some 0 →
       netStep (.timerFire 0) (netRun acts7 initNet) =
         connectWsStep "A"
           { netRun acts7 initNet with timers := (netRun acts7 initNet).timers.eraseIdx 0 })) :=
  ⟨rfl, c7_amended_reconnect_guard acts7 0 0 "A" rfl⟩

/-- Claim C8 counterexample: after `connect A` then `switchCrab B`, B's
bootstrap is pending but A's channel is still attached (handlers not
detached), and an event arriving on A's channel still mutates the view —
teardown does NOT happen before the bootstrap starts. -/
theorem c8_counterexample :
    (netRun acts8 initNet).pendingBoots = ["B"] ∧
    (netRun acts8 initNet).view.activeCrab = "B" ∧
    (netRun acts8 initNet).chans = [⟨0, "A", true, false⟩] ∧
    (netRun acts8 initNet).view.position = (5, 5) ∧
    (netStep (.deliver 0 (.positionEv (3, 3))) (netRun acts8 initNet)).view.position = (3, 3) := by
  refine ⟨rfl, rfl, rfl, rfl, rfl⟩

/-- Claim C8 as amended: the old channel is torn down (handlers detached,
then closed) only when the bootstrap completes and `connectWs` replaces
it, not when the switch starts; from then on — in every reachable state —
any channel other than the current one is detached and closed, and an
event delivered on it leaves the state untouched.  During the bootstrap
gap the old channel remains attached and its events still mutate the view
(see the counterexample). -/
theorem c8_teardown (acts : List NetAction) (c : Chan) (e : WsEvent)
    (hc : c ∈ (netRun acts initNet).chans)
    (h : (netRun acts initNet).wsRef ≠ some c.id) :
    c.attached = false ∧ c.closed = true ∧
    netStep (.deliver c.id e) (netRun acts initNet) = netRun acts initNet := by
  have hinv := chanInv_netRun acts
  have hac := hinv.1 c hc h
  refine ⟨hac.1, hac.2, ?_⟩
  show deliverStep c.id e (netRun acts initNet) = netRun acts initNet
  unfold deliverStep
  cases hf : (netRun acts initNet).chans.find? (fun d => d.id = c.id) with
  | none => rfl
  | some d =>
    have hdmem := List.mem_of_find?_eq_some hf
    have hdid : d.id = c.id := by
      have := List.find?_some hf
      simpa using this
    have hd := hinv.1 d hdmem (by rw [hdid]; exact h)
    simp [hd.1]

/-- Claim C8 amended, witnessed at the trace `acts7`, where A's old
channel object sits detached and closed next to B's current channel. -/
theorem c8_teardown_witness :
    (⟨0, "A", false, true⟩ : Chan) ∈ (netRun acts7 initNet).chans ∧
    (netRun acts7 initNet).wsRef ≠ some (⟨0, "A", false, true⟩ : Chan).id ∧
    ((⟨0, "A", false, true⟩ : Chan).attached = false ∧
     (⟨0, "A", false, true⟩ : Chan).closed = true ∧
     netStep (.deliver (⟨0, "A", false, true⟩ : Chan).id (.positionEv (3, 3)))
         (netRun acts7 initNet) =
       netRun acts7 initNet) :=
  ⟨by decide, by decide,
   c8_teardown acts7 ⟨0, "A", false, true⟩ (.positionEv (3, 3)) (by decide) (by decide)⟩

/-- Claim C10: a `respond` invocation whose string argument payload parses
as an object lacking a `message` field still yields an agent-side line
flagged as respond whose text slot is the absent property's value
(undefined) — the raw-string fallback is not taken when the parse
succeeds on an object. -/
theorem c10_respond_missing_message (raw : String) (fields : List (String × JVal))
    (phase : Phase) (hp : jsonParse raw = some (.jobj fields))
    (hm : jlookup "message" fields = none) :
    renderOutputItem (.functionCall (some "respond") (some (.jstr raw))) phase =
      some ⟨.right, none, phase, none, true⟩ := by
  simp [renderOutputItem, respondTry, argsVal, hp, propAccess, hm, asMsgText]

/-- Claim C10, witnessed at the payload `"{}"` (written with escaped
braces). -/
theorem c10_witness :
    jsonParse "\x7b\x7d" = some (.jobj []) ∧ jlookup "message" [] = none ∧
    renderOutputItem (.functionCall (some "respond") (some (.jstr "\x7b\x7d"))) .normal =
      some ⟨.right, none, .normal, none, true⟩ :=
  ⟨rfl, rfl, c10_respond_missing_message "\x7b\x7d" [] .normal rfl rfl⟩

end Hermitclaw
